import Mathlib

/-!
Verification of the animal-scraper extraction and fetch subsystem.

The Python sources are shallowly embedded: strings are Lean `String`s
(sequences of unicode scalar values, matching Python's code-point strings),
regex-based text transformations are embedded as explicit character-list
scans, and the stateful downloader is modelled as a pure function from an
explicit filesystem/response state.
-/

namespace Scraper

/-- Python's `\s` character class restricted to its ASCII members
(space, tab, newline, vertical tab, form feed, carriage return); this is the
whitespace notion used by `re.sub(r'\s+', ' ', ...)` and `str.strip()` in
`src/utils/helpers.py` for the ASCII inputs of interest. -/
def pyIsSpace (c : Char) : Bool :=
  c.toNat = 32 || c.toNat = 9 || c.toNat = 10 || c.toNat = 11 || c.toNat = 12 || c.toNat = 13

/-- ASCII lowering of one character, modelling what Python's `str.lower()`
does on the ASCII strings this program manipulates. -/
def pyToLower (c : Char) : Char :=
  if 65 ≤ c.toNat ∧ c.toNat ≤ 90 then Char.ofNat (c.toNat + 32) else c

/-- Python `str.lower()` (ASCII fragment). -/
def pyLower (s : String) : String :=
  String.mk (s.data.map pyToLower)

/-- Python `str.strip()`: drop whitespace from both ends. -/
def stripChars (l : List Char) : List Char :=
  ((l.dropWhile pyIsSpace).reverse.dropWhile pyIsSpace).reverse

/-- One pass of `re.sub(r'\s+', ' ', text)`: the Boolean records whether the
previously emitted character came from a whitespace run. -/
def collapseWsAux : Bool → List Char → List Char
  | _, [] => []
  | prevSpace, c :: rest =>
    if pyIsSpace c then
      if prevSpace then collapseWsAux true rest
      else ' ' :: collapseWsAux true rest
    else c :: collapseWsAux false rest

/-- Python's `re.sub(r'\s+', ' ', text)`: collapse every whitespace run to one space. -/
def collapseWs (l : List Char) : List Char :=
  collapseWsAux false l

/-- Given the characters after a `[`, try to match the rest of the citation
pattern `\d+\]`; on success return the characters after the closing `]`. -/
def dropCitationTail (l : List Char) : Option (List Char) :=
  let digits := l.takeWhile Char.isDigit
  if digits.isEmpty then none
  else
    match l.dropWhile Char.isDigit with
    | ']' :: rest => some rest
    | _ => none

/-- Fuelled scan implementing `re.sub(r'\[\d+\]', '', text)`: at each
position, remove a citation marker if one starts here, otherwise keep the
character and advance (the fuel only bounds the number of scan steps; each
step consumes at least one character, so `removeCitations` below never runs
out). -/
def removeCitationsF : Nat → List Char → List Char
  | 0, l => l
  | _ + 1, [] => []
  | fuel + 1, c :: rest =>
    if c = '[' then
      match dropCitationTail rest with
      | some rest' => removeCitationsF fuel rest'
      | none => c :: removeCitationsF fuel rest
    else c :: removeCitationsF fuel rest

/-- Python's `re.sub(r'\[\d+\]', '', text)` (helpers.py line 145). -/
def removeCitations (l : List Char) : List Char :=
  removeCitationsF l.length l

/-- Python's substring test `needle in haystack`. -/
def pySubstr (needle haystack : List Char) : Bool :=
  decide (needle <:+: haystack)

/-- Case-insensitive containment of the literal `edit`, as matched by
`re.IGNORECASE` inside the parenthetical pattern. -/
def containsEdit (l : List Char) : Bool :=
  pySubstr "edit".data (l.map pyToLower)

/-- Given the characters after a `(`, try to match the rest of the pattern
`[^)]*edit[^)]*\)` (case-insensitive): since `[^)]` cannot cross a `)`, the
match must close at the first `)`, and succeeds exactly when the content up
to it contains `edit`. On success return the characters after the `)`. -/
def dropEditParenTail (l : List Char) : Option (List Char) :=
  let content := l.takeWhile (fun d => !(d = ')'))
  match l.dropWhile (fun d => !(d = ')')) with
  | _ :: rest => if containsEdit content then some rest else none
  | [] => none

/-- Fuelled scan implementing
`re.sub(r'\([^)]*edit[^)]*\)', '', text, flags=re.IGNORECASE)`. -/
def removeEditParensF : Nat → List Char → List Char
  | 0, l => l
  | _ + 1, [] => []
  | fuel + 1, c :: rest =>
    if c = '(' then
      match dropEditParenTail rest with
      | some rest' => removeEditParensF fuel rest'
      | none => c :: removeEditParensF fuel rest
    else c :: removeEditParensF fuel rest

/-- Python's `re.sub(r'\([^)]*edit[^)]*\)', '', text, IGNORECASE)` (helpers.py 146). -/
def removeEditParens (l : List Char) : List Char :=
  removeEditParensF l.length l

/-- Embeds `normalize_text` from `src/utils/helpers.py` (lines 128-148): empty in,
empty out; otherwise strip, collapse whitespace runs, remove `[n]` citation
markers, remove `(...edit...)` parentheticals, and strip again. -/
def normalizeText (text : String) : String :=
  if text = "" then ""
  else
    let normalized := collapseWs (stripChars text.data)
    let noCite := removeCitations normalized
    let noEdit := removeEditParens noCite
    String.mk (stripChars noEdit)

/-- Checker: does the character list contain two adjacent whitespace
characters (a whitespace run of length at least 2)? -/
def hasWsRun : List Char → Bool
  | [] => false
  | [_] => false
  | a :: b :: rest => (pyIsSpace a && pyIsSpace b) || hasWsRun (b :: rest)

/-- Checker: does the character list contain a citation-marker substring of
the form `[n]` (a bracketed number)? -/
def hasCitation : List Char → Bool
  | [] => false
  | c :: rest => (c = '[' && (dropCitationTail rest).isSome) || hasCitation rest

/-- Find the first occurrence of the (nonempty) separator `sep`: on success
return the characters before it and the characters after it. -/
def findSplit (sep : List Char) : List Char → Option (List Char × List Char)
  | [] => none
  | c :: rest =>
    if sep.isPrefixOf (c :: rest) then some ([], (c :: rest).drop sep.length)
    else
      match findSplit sep rest with
      | some (pre, post) => some (c :: pre, post)
      | none => none

/-- Fuelled splitting on a separator, implementing Python's `str.split(sep)`
for nonempty `sep`: repeatedly cut at the first occurrence.  Each found
occurrence consumes at least one character, so fuel `length + 1` suffices. -/
def pySplitF (sep : List Char) : Nat → List Char → List (List Char)
  | 0, l => [l]
  | fuel + 1, l =>
    match findSplit sep l with
    | some (pre, post) => pre :: pySplitF sep fuel post
    | none => [l]

/-- Python `s.split(sep)` for a nonempty separator. -/
def pySplit (s sep : String) : List String :=
  (pySplitF sep.data (s.data.length + 1) s.data).map String.mk

/-- The separator cascade of `_split_multiple_adjectives`
(wikipedia_animal_scraper.py line 361). -/
def separators : List String :=
  [",", ";", " or ", " and ", "/", " & "]

/-- The null-value sentinel set of `_split_multiple_adjectives` (line 380):
`n/a`, `none`, em-dash, hyphen. -/
def nullSentinels : List String :=
  ["n/a", "none", "—", "-"]

/-- One pass of the cascade (lines 366-374): each fragment that contains the
separator is replaced by its split parts, others are kept.  Since
`str.split` returns `[adj]` when the separator does not occur, both branches
are `pySplit adj sep`. -/
def applySeparator (adjectives : List String) (sep : String) : List String :=
  adjectives.flatMap fun adj =>
    if (findSplit sep.data adj.data).isSome then pySplit adj sep else [adj]

/-- The cleanup loop (lines 377-381): normalize each fragment and keep it if
it is nonempty, longer than one character, and not a null-value sentinel. -/
def cleanAdjectives (adjectives : List String) : List String :=
  adjectives.filterMap fun adj =>
    let cleaned := normalizeText adj
    if cleaned ≠ "" && cleaned.length > 1 && !(nullSentinels.contains (pyLower cleaned))
    then some cleaned else none

/-- Embeds `_split_multiple_adjectives` (wikipedia_animal_scraper.py lines 337-383).
The first argument is the plain text re-extracted after replacing `<br>`
markers in the cell markup by commas (`text_with_br_as_comma`, lines
349-355); for a plain-text cell whose markup equals its text and contains no
markup at all, it equals the normalized cell text, so both arguments
coincide. -/
def splitMultipleAdjectives (textWithBrAsComma adjectiveText : String) : List String :=
  let finalText := if textWithBrAsComma ≠ adjectiveText then textWithBrAsComma else adjectiveText
  let adjectives := separators.foldl applySeparator [finalText]
  let cleaned := cleanAdjectives adjectives
  if cleaned.isEmpty then [finalText] else cleaned

/-- The denylist of `is_valid_animal_name` (helpers.py lines 165-168). -/
def invalidTerms : List String :=
  ["see also", "references", "external links", "notes",
   "male", "female", "young", "group", "adjective"]

/-- Embeds `is_valid_animal_name` from `src/utils/helpers.py` (lines 151-171):
reject empty or one-character names, and any name whose lowercase form
contains one of the denylist terms as a substring. -/
def isValidAnimalName (name : String) : Bool :=
  if name = "" || name.length < 2 then false
  else
    let nameLower := pyLower name
    !(invalidTerms.any fun term => pySubstr term.data nameLower.data)

/-- A record produced by the scraper, as consumed by the processor: the
`animal` (key) and `adjective` (value) fields of the entry dict.  A missing
field is modelled as the empty string, which Python's
`entry.get(...)`-falsiness check treats identically. -/
structure AnimalEntry where
  animal : String
  adjective : String
deriving DecidableEq

/-- The adjective sentinel list of `validate_animal_entry`
(data_processor.py line 56); `"â€”"` is the literal (mojibake) string in the
source. -/
def adjectiveSentinels : List String :=
  ["n/a", "none", "â€”", "-"]

/-- Embeds `validate_animal_entry` from `src/processor/data_processor.py`
(lines 32-65). -/
def validateAnimalEntry (e : AnimalEntry) : Bool :=
  if e.animal = "" || e.adjective = "" then false
  else
    let animalName := String.mk (stripChars e.animal.data)
    let adjective := String.mk (stripChars e.adjective.data)
    if !(isValidAnimalName animalName) then false
    else if adjective.length < 2 || adjectiveSentinels.contains (pyLower adjective) then false
    else if pyLower animalName = pyLower adjective then false
    else true

/-- The deduplication key of `deduplicate_entries` (data_processor.py lines
82-84): the pair of normalized, lowercased animal and adjective. -/
def entryKey (e : AnimalEntry) : String × String :=
  (pyLower (normalizeText e.animal), pyLower (normalizeText e.adjective))

/-- The loop of `deduplicate_entries`: `seen` is the set of combination keys
seen so far (modelled as a list with membership). -/
def dedupGo (seen : List (String × String)) : List AnimalEntry → List AnimalEntry
  | [] => []
  | e :: rest =>
    let k := entryKey e
    if k ∈ seen then dedupGo seen rest
    else e :: dedupGo (k :: seen) rest

/-- Embeds `deduplicate_entries` from `src/processor/data_processor.py`
(lines 67-93): keep an entry iff its combination key has not been seen. -/
def deduplicateEntries (animalData : List AnimalEntry) : List AnimalEntry :=
  dedupGo [] animalData

/-- The header-label indicator substrings used by the table classifier
(wikipedia_animal_scraper.py lines 113-116 and 150-153). -/
def collateralIndicators : List String :=
  ["collateral adjective", "adjective", "collateral",
   "adjectival", "relating adjective"]

/-- Does one header cell's text match some indicator, case-insensitively?
(`indicator in cell_text` after `.lower()`). -/
def cellMatchesIndicator (cell : String) : Bool :=
  collateralIndicators.any fun ind => pySubstr ind.data (pyLower cell).data

/-- Embeds `_identify_collateral_adjective_tables` (wikipedia_animal_scraper.py
lines 87-132).  A table is modelled as the list of its rows, each row the
list of its cells' extracted text (`get_text(strip=True)`); the input list
is the document's `wikitable` tables in document order.  A table with no
row at all has no header row and is skipped. -/
def identifyCollateralAdjectiveTables (tables : List (List (List String))) :
    List (List (List String)) :=
  tables.filter fun table =>
    match table with
    | [] => false
    | headerRow :: _ => headerRow.any cellMatchesIndicator

/-- The scan of `_find_collateral_adjective_column_index`: return the index
of the first matching cell, counting from `idx`. -/
def findColIdxGo : Nat → List String → Int
  | _, [] => -1
  | idx, cell :: rest =>
    if cellMatchesIndicator cell then Int.ofNat idx
    else findColIdxGo (idx + 1) rest

/-- Embeds `_find_collateral_adjective_column_index` (wikipedia_animal_scraper.py
lines 134-157): index of the first header cell matching an indicator, `-1`
if none. -/
def findCollateralAdjectiveColumnIndex (headerRow : List String) : Int :=
  findColIdxGo 0 headerRow

/-- What `self.session.get(api_url, ...)` yields inside
`_get_animal_image_from_api`: either a raised
`requests.exceptions.RequestException`, or a response with a status code and
a body.  The body is `none` when `response.json()` raises (a malformed or
empty body, as carried by a real 304 response), `some none` for valid JSON
without a `thumbnail.source`, and `some (some url)` for valid JSON whose
`thumbnail.source` is `url`. -/
inductive ApiResponse where
  | requestError
  | response (statusCode : Nat) (body : Option (Option String))
deriving DecidableEq

/-- Lookup in the `_api_cache` dict, modelled as an association list with
the most recent assignment first. -/
def lookupCache (name : String) (cache : List (String × Option String)) :
    Option (Option String) :=
  (cache.find? fun p => p.fst = name).map Prod.snd

/-- Embeds `_get_animal_image_from_api` (wikipedia_animal_scraper.py lines
185-247), as a pure function of the cache and of the network's answer.
Returns the result together with the updated cache.  Status codes ≥ 400 make
`raise_for_status` raise an `HTTPError` (a `RequestException`), caught at
line 236; a 304 passes `raise_for_status` and fails at `response.json()`
(caught at line 240); every handler returns `None`, so no failure
propagates. -/
def getAnimalImageFromApi (animalWikiName : String)
    (apiCache : List (String × Option String)) (resp : ApiResponse) :
    Option String × List (String × Option String) :=
  if animalWikiName = "" then (none, apiCache)
  else
    match lookupCache animalWikiName apiCache with
    | some cached => (cached, apiCache)
    | none =>
      match resp with
      | .requestError => (none, (animalWikiName, none) :: apiCache)
      | .response statusCode body =>
        if 400 ≤ statusCode then (none, (animalWikiName, none) :: apiCache)
        else
          match body with
          | none => (none, (animalWikiName, none) :: apiCache)
          | some none => (none, (animalWikiName, none) :: apiCache)
          | some (some url) => (some url, (animalWikiName, some url) :: apiCache)

/-- The constant `MAX_IMAGE_SIZE` from `src/config.py` (15 MB). -/
def MAX_IMAGE_SIZE : Nat := 15 * 1024 * 1024

/-- An HTTP response to an image GET, as consumed by
`_download_single_image`: whether `raise_for_status` passes, the
`content-type` header (empty string when absent, matching
`headers.get('content-type', '')`), the declared `content-length` if
present, and the sizes of the chunks yielded by `iter_content`. -/
structure HttpResponse where
  statusOk : Bool
  contentType : String
  contentLength : Option Nat
  chunks : List Nat
deriving DecidableEq

/-- The network's answer to the GET: a raised timeout/request error, or a
response. -/
inductive NetResponse where
  | netError (msg : String)
  | response (r : HttpResponse)
deriving DecidableEq

/-- The check `content_type.startswith('image/')` after `.lower()` (line 106). -/
def isImageContentType (ct : String) : Bool :=
  "image/".data.isPrefixOf (pyLower ct).data

/-- The declared-length check of lines 112-113: header present and value
strictly above the ceiling. -/
def lengthTooLarge : Option Nat → Bool
  | none => false
  | some n => MAX_IMAGE_SIZE < n

/-- The streaming loop of lines 119-132: write each nonempty chunk, add its
size, and abort (returning `none`, after deleting the partly written file) as soon
as the running total exceeds `maxSize`; otherwise return the total. -/
def streamLoop (maxSize : Nat) : Nat → List Nat → Option Nat
  | total, [] => some total
  | total, c :: rest =>
    if c = 0 then streamLoop maxSize total rest
    else
      let total' := total + c
      if maxSize < total' then none else streamLoop maxSize total' rest

/-- The observable effect of one `_download_single_image` call: the returned
`(success, message, local_path)` triple (`hasLocalPath` records whether the
path component is non-`None`), whether a network request was issued, and the
destination file's size after the call (`none` = no file at that path). -/
structure DownloadResult where
  success : Bool
  message : String
  hasLocalPath : Bool
  networkCalled : Bool
  finalFileSize : Option Nat
deriving DecidableEq

/-- Embeds `_download_single_image` (image_downloader.py lines 71-164) as a pure
function of the pre-state of the destination file (`existing` is its size if
it exists) and of the network's answer.  The skip check at lines 89-92 tests
`local_path.exists()` only; all failure paths before line 120 leave the
directory untouched, the mid-stream abort and the empty-file check unlink
the file. -/
def downloadSingleImage (existing : Option Nat) (net : NetResponse) : DownloadResult :=
  match existing with
  | some size => ⟨true, "File already exists", true, false, some size⟩
  | none =>
    match net with
    | .netError msg => ⟨false, msg, false, true, none⟩
    | .response r =>
      if !r.statusOk then ⟨false, "Request error", false, true, none⟩
      else if !(isImageContentType r.contentType) then
        ⟨false, "Non-image content type", false, true, none⟩
      else if lengthTooLarge r.contentLength then
        ⟨false, "Image too large", false, true, none⟩
      else
        match streamLoop MAX_IMAGE_SIZE 0 r.chunks with
        | none => ⟨false, "Image too large during download", false, true, none⟩
        | some total =>
          if total = 0 then ⟨false, "Downloaded file is empty", false, true, none⟩
          else ⟨true, "Downloaded successfully", true, true, some total⟩

/-- The `(success, message, local_path)` triple returned by one completed
download future (or produced by the exception handler at lines 267-274). -/
structure TaskOutcome where
  success : Bool
  message : String
  localPath : Option String
deriving DecidableEq

/-- One entry of the `animal_data` list as it enters
`download_images_concurrently`: its key (`animal`) and its optional
`primary_image_url`. -/
structure OrchRecord where
  animal : String
  primaryImageUrl : Option String
deriving DecidableEq

/-- The first (and only) URL built by `_get_fallback_image_urls`
(image_downloader.py lines 166-192). -/
def fallbackImageUrl (animalName : String) : String :=
  "http://commons.wikimedia.org/wiki/File:" ++
    String.mk (animalName.data.map fun c => if c = ' ' then '_' else c) ++ ".jpg"

/-- The locator of a record's fetch task (lines 218-236): the primary image
URL when truthy, otherwise the first fallback URL.  Since
`_get_fallback_image_urls` always returns a nonempty list, every record
yields exactly one task. -/
def taskUrl (rec : OrchRecord) : String :=
  match rec.primaryImageUrl with
  | some url => if url = "" then fallbackImageUrl rec.animal else url
  | none => fallbackImageUrl rec.animal

/-- The `download_tasks` list: one `(key, locator)` pair per record, in
record order. -/
def orchTasks (records : List OrchRecord) : List (String × String) :=
  records.map fun rec => (rec.animal, taskUrl rec)

/-- Lookup in the `animal_to_data_map` dict built by the loop at lines
218-236: successive assignments `map[(animal, url)] = idx` mean the LAST
record index with a given `(key, locator)` pair wins; modelled by searching
the enumerated task list from the back. -/
def mapLookup (indexed : List (Nat × (String × String))) (key : String × String) :
    Option Nat :=
  (indexed.reverse.find? fun p => p.snd = key).map Prod.fst

/-- Embeds `download_images_concurrently` (image_downloader.py lines 194-283),
restricted to its outcome-attachment behaviour.  `outcome i` is the result
eventually produced by the future of task `i`, and `order` is the order in
which `as_completed` yields the futures (a permutation of the task indices
in any real run).  The returned list gives, for each input record, the
outcome fields attached to it (`none` = the record was never updated). -/
def downloadImagesConcurrently (records : List OrchRecord)
    (outcome : Nat → TaskOutcome) (order : List Nat) : List (Option TaskOutcome) :=
  let tasks := orchTasks records
  let animalToDataMap := tasks.enum
  order.foldl
    (fun statuses i =>
      match tasks[i]? with
      | none => statuses
      | some key =>
        match mapLookup animalToDataMap key with
        | none => statuses
        | some dataIdx => statuses.set dataIdx (some (outcome i)))
    (List.replicate records.length none)

/-! ### Lemmas about the text normalizer -/

theorem hasWsRun_cons_false {c : Char} {l : List Char} (h : hasWsRun (c :: l) = false) :
    hasWsRun l = false := by
  cases l with
  | nil => rfl
  | cons d rest =>
    unfold hasWsRun at h
    simp only [Bool.or_eq_false_iff] at h
    exact h.2

theorem hasWsRun_append_left {l₂ : List Char} :
    ∀ {l₁ : List Char}, hasWsRun (l₁ ++ l₂) = false → hasWsRun l₁ = false
  | [], _ => rfl
  | [_], _ => rfl
  | c :: d :: r, h => by
    have h' : (pyIsSpace c && pyIsSpace d) = false ∧ hasWsRun (d :: (r ++ l₂)) = false := by
      simpa [hasWsRun] using h
    have h2 := @hasWsRun_append_left l₂ (d :: r) h'.2
    simp [hasWsRun, h'.1, h2]

theorem hasWsRun_append_right :
    ∀ {l₁ l₂ : List Char}, hasWsRun (l₁ ++ l₂) = false → hasWsRun l₂ = false
  | [], _, h => h
  | _ :: r, _, h =>
    @hasWsRun_append_right r _ (hasWsRun_cons_false (by simpa using h))

theorem hasWsRun_suffix_false {l₁ l₂ : List Char} (hs : l₁ <:+ l₂)
    (h : hasWsRun l₂ = false) : hasWsRun l₁ = false := by
  obtain ⟨t, rfl⟩ := hs
  exact hasWsRun_append_right h

theorem hasWsRun_stripChars {l : List Char} (h : hasWsRun l = false) :
    hasWsRun (stripChars l) = false := by
  have h1 : hasWsRun (l.dropWhile pyIsSpace) = false :=
    hasWsRun_suffix_false (List.dropWhile_suffix _) h
  obtain ⟨t, ht⟩ := List.dropWhile_suffix (l := (l.dropWhile pyIsSpace).reverse) pyIsSpace
  have h2 : (List.dropWhile pyIsSpace (l.dropWhile pyIsSpace).reverse).reverse ++ t.reverse
      = l.dropWhile pyIsSpace := by
    have h3 := congrArg List.reverse ht
    simpa [List.reverse_append] using h3
  rw [← h2] at h1
  exact hasWsRun_append_left h1

theorem mem_stripChars {c : Char} {l : List Char} (h : c ∈ stripChars l) : c ∈ l := by
  unfold stripChars at h
  rw [List.mem_reverse] at h
  have h2 := List.Sublist.mem h (List.dropWhile_sublist _)
  rw [List.mem_reverse] at h2
  exact List.Sublist.mem h2 (List.dropWhile_sublist _)

theorem mem_collapseWsAux {c : Char} {b : Bool} {l : List Char}
    (h : c ∈ collapseWsAux b l) : c = ' ' ∨ c ∈ l := by
  induction l generalizing b with
  | nil => simp [collapseWsAux] at h
  | cons d rest ih =>
    unfold collapseWsAux at h
    by_cases hd : pyIsSpace d = true
    · rw [if_pos hd] at h
      cases b with
      | true =>
        rcases ih h with h' | h'
        · exact Or.inl h'
        · exact Or.inr (List.mem_cons_of_mem d h')
      | false =>
        rcases List.mem_cons.mp h with h' | h'
        · exact Or.inl h'
        · rcases ih h' with h'' | h''
          · exact Or.inl h''
          · exact Or.inr (List.mem_cons_of_mem d h'')
    · rw [if_neg hd] at h
      rcases List.mem_cons.mp h with h' | h'
      · exact Or.inr (h' ▸ List.mem_cons_self d rest)
      · rcases ih h' with h'' | h''
        · exact Or.inl h''
        · exact Or.inr (List.mem_cons_of_mem d h'')

theorem collapseWsAux_true_head {l : List Char} :
    ∀ {c : Char} {rest : List Char}, collapseWsAux true l = c :: rest → pyIsSpace c = false := by
  induction l with
  | nil => intro c rest h; simp [collapseWsAux] at h
  | cons d tl ih =>
    intro c rest h
    unfold collapseWsAux at h
    by_cases hd : pyIsSpace d = true
    · rw [if_pos hd] at h
      exact ih h
    · rw [if_neg hd] at h
      rcases List.cons.injEq .. ▸ h with ⟨rfl, -⟩
      simpa using hd

theorem collapseWsAux_noWsRun (b : Bool) (l : List Char) :
    hasWsRun (collapseWsAux b l) = false := by
  induction l generalizing b with
  | nil => rfl
  | cons d rest ih =>
    unfold collapseWsAux
    by_cases hd : pyIsSpace d = true
    · rw [if_pos hd]
      cases b with
      | true => exact ih true
      | false =>
        rcases hX : collapseWsAux true rest with - | ⟨c, r⟩
        · rfl
        · have hc := collapseWsAux_true_head hX
          have hr : hasWsRun (c :: r) = false := hX ▸ ih true
          simp [hasWsRun, hc, hr]
    · rw [if_neg hd]
      have hd' : pyIsSpace d = false := by simpa using hd
      rcases hX : collapseWsAux false rest with - | ⟨c, r⟩
      · rfl
      · have hr : hasWsRun (c :: r) = false := hX ▸ ih false
        simp [hasWsRun, hd', hr]

theorem removeCitationsF_of_not_mem :
    ∀ (fuel : Nat) (l : List Char), '[' ∉ l → removeCitationsF fuel l = l
  | 0, _, _ => rfl
  | _ + 1, [], _ => rfl
  | fuel + 1, c :: rest, h => by
    have hc : ¬(c = '[') := fun he => h (he ▸ List.mem_cons_self c rest)
    have hr : '[' ∉ rest := fun hm => h (List.mem_cons_of_mem c hm)
    unfold removeCitationsF
    simp [hc, removeCitationsF_of_not_mem fuel rest hr]

theorem removeEditParensF_of_not_mem :
    ∀ (fuel : Nat) (l : List Char), '(' ∉ l → removeEditParensF fuel l = l
  | 0, _, _ => rfl
  | _ + 1, [], _ => rfl
  | fuel + 1, c :: rest, h => by
    have hc : ¬(c = '(') := fun he => h (he ▸ List.mem_cons_self c rest)
    have hr : '(' ∉ rest := fun hm => h (List.mem_cons_of_mem c hm)
    unfold removeEditParensF
    simp [hc, removeEditParensF_of_not_mem fuel rest hr]

theorem hasCitation_of_not_mem {l : List Char} (h : '[' ∉ l) : hasCitation l = false := by
  induction l with
  | nil => rfl
  | cons c rest ih =>
    have hc : ¬(c = '[') := fun he => h (he ▸ List.mem_cons_self c rest)
    have hr : '[' ∉ rest := fun hm => h (List.mem_cons_of_mem c hm)
    simp [hasCitation, hc, ih hr]

theorem removeCitations_of_not_mem {l : List Char} (h : '[' ∉ l) :
    removeCitations l = l :=
  removeCitationsF_of_not_mem _ _ h

theorem removeEditParens_of_not_mem {l : List Char} (h : '(' ∉ l) :
    removeEditParens l = l :=
  removeEditParensF_of_not_mem _ _ h

theorem mem_collapseWs {c : Char} {l : List Char} (h : c ∈ collapseWs l) :
    c = ' ' ∨ c ∈ l :=
  mem_collapseWsAux (b := false) h

/-! ### Claim C1: the Multi-Value Splitter on a plain-text cell -/

/-- Claim C1 (counterexample): on the plain-text input `"A, B and C"` (markup
equal to the text) `_split_multiple_adjectives` does NOT return
`["A", "B", "C"]` — the cleanup loop discards every fragment of length ≤ 1,
so all three fragments are dropped and the single-element fallback is
returned instead. -/
theorem C1_splitter_counterexample :
    splitMultipleAdjectives "A, B and C" "A, B and C" ≠ ["A", "B", "C"] := by decide

/-- Claim C1 (amended): on the plain-text input `"A, B and C"` the separator
cascade does produce the three fragments `"A"`, `" B"`, `"C"` progressively
(comma first, then `" and "` applied to the fragment `" B and C"`), every
fragment is normalized before filtering, but all three normalized fragments
have length ≤ 1 and are discarded, so the splitter returns the one-element
fallback `["A, B and C"]`; on an input whose fragments are longer than one
character, such as `"Aa, Bb and Cc"`, it returns exactly the three-element
split. -/
theorem C1_splitter_amended :
    splitMultipleAdjectives "A, B and C" "A, B and C" = ["A, B and C"] ∧
    separators.foldl applySeparator ["A, B and C"] = ["A", " B", "C"] ∧
    cleanAdjectives ["A", " B", "C"] = [] ∧
    splitMultipleAdjectives "Aa, Bb and Cc" "Aa, Bb and Cc" = ["Aa", "Bb", "Cc"] := by
  decide

/-! ### Claim C2: the Text Normalizer's whitespace and citation guarantees -/

/-- Claim C2 (counterexample): it is NOT true that every `normalize_text`
output is free of whitespace runs and citation markers.  Removing the
citation marker from `"a [1] b"` joins the two surrounding spaces into the
run `"a  b"` (and on `"a [[1]2] b"` the removal even creates the new
citation marker `[2]`). -/
theorem C2_normalizer_counterexample :
    ¬(∀ s : String, hasWsRun (normalizeText s).data = false ∧
        hasCitation (normalizeText s).data = false) := by
  intro h
  have h1 := (h "a [1] b").1
  have h2 : hasWsRun (normalizeText "a [1] b").data = true := by decide
  rw [h2] at h1
  exact Bool.noConfusion h1

/-- Claim C2 (amended): for every input string that contains no `[` and no
`(` character — so that the citation-marker and editorial-parenthetical
removals do not fire — the output of `normalize_text` contains no run of two
or more consecutive whitespace characters and no citation-marker substring
`[n]`.  (On general inputs the two removal passes can splice whitespace runs
or bracketed numbers together, as the counterexample shows.) -/
theorem C2_normalizer_amended (s : String) (h1 : '[' ∉ s.data) (h2 : '(' ∉ s.data) :
    hasWsRun (normalizeText s).data = false ∧ hasCitation (normalizeText s).data = false := by
  by_cases hs : s = ""
  · subst hs
    exact ⟨rfl, rfl⟩
  · have hb : '[' ∉ collapseWs (stripChars s.data) := by
      intro hm
      rcases mem_collapseWs hm with h' | h'
      · exact absurd h' (by decide)
      · exact h1 (mem_stripChars h')
    have hp : '(' ∉ collapseWs (stripChars s.data) := by
      intro hm
      rcases mem_collapseWs hm with h' | h'
      · exact absurd h' (by decide)
      · exact h2 (mem_stripChars h')
    have hrun : hasWsRun (collapseWs (stripChars s.data)) = false :=
      collapseWsAux_noWsRun false _
    unfold normalizeText
    rw [if_neg hs]
    show hasWsRun (stripChars (removeEditParens (removeCitations
          (collapseWs (stripChars s.data))))) = false ∧
        hasCitation (stripChars (removeEditParens (removeCitations
          (collapseWs (stripChars s.data))))) = false
    rw [removeCitations_of_not_mem hb, removeEditParens_of_not_mem hp]
    refine ⟨hasWsRun_stripChars hrun, ?_⟩
    exact hasCitation_of_not_mem fun hm => hb (mem_stripChars hm)

/-- Witness for the amended Claim C2 at a concrete bracket-free input with
internal whitespace runs. -/
theorem C2_normalizer_amended_witness :
    hasWsRun (normalizeText "  Feline \t  cat ").data = false ∧
    hasCitation (normalizeText "  Feline \t  cat ").data = false :=
  C2_normalizer_amended "  Feline \t  cat " (by decide) (by decide)

/-! ### Claim C3: the skip check of `_download_single_image` -/

/-- Claim C3 (counterexample): a task whose destination file exists with
ZERO size is still skipped — success outcome and no network call —
contradicting the claim that such a task "is not skipped and is fetched".
The check at line 89 is `local_path.exists()` with no size test. -/
theorem C3_skip_counterexample :
    (downloadSingleImage (some 0)
        (NetResponse.response ⟨true, "image/jpeg", none, [100]⟩)).success = true ∧
    (downloadSingleImage (some 0)
        (NetResponse.response ⟨true, "image/jpeg", none, [100]⟩)).networkCalled = false := by
  decide

/-- Claim C3 (amended): the downloader skips the task — returning a success
outcome and making no network call, leaving the destination file unchanged —
if and only if the destination file already exists, of ANY size including
zero; only when no file exists at the destination is the fetch issued. -/
theorem C3_skip_amended (existing : Option Nat) (net : NetResponse) :
    ((downloadSingleImage existing net).networkCalled = false ↔ existing.isSome = true) ∧
    (existing.isSome = true →
      (downloadSingleImage existing net).success = true ∧
      (downloadSingleImage existing net).finalFileSize = existing) := by
  cases existing with
  | some n => exact ⟨by simp [downloadSingleImage], fun _ => by simp [downloadSingleImage]⟩
  | none =>
    refine ⟨?_, by simp⟩
    have hnc : (downloadSingleImage none net).networkCalled = true := by
      cases net with
      | netError msg => rfl
      | response r =>
        unfold downloadSingleImage
        repeat' split
        all_goals first | rfl | simp_all
    simp [hnc]

/-- Witness for the amended Claim C3 at a zero-size existing file. -/
theorem C3_skip_amended_witness :
    (downloadSingleImage (some 0) (NetResponse.netError "timeout")).success = true ∧
    (downloadSingleImage (some 0) (NetResponse.netError "timeout")).finalFileSize = some 0 :=
  (C3_skip_amended (some 0) (NetResponse.netError "timeout")).2 rfl

/-! ### Claim C5: the declared content-length ceiling -/

/-- Claim C5 (confirmed): a fetch task that is actually issued (no file at
the destination yet) whose response declares a `content-length` above
`MAX_IMAGE_SIZE` produces a failure outcome with no path, and no file is
written — the check at lines 112-116 runs before the output file is opened,
so the destination stays absent. -/
theorem C5_declared_length_ceiling (r : HttpResponse) (n : Nat)
    (hok : r.statusOk = true) (hct : isImageContentType r.contentType = true)
    (hlen : r.contentLength = some n) (hbig : MAX_IMAGE_SIZE < n) :
    (downloadSingleImage none (NetResponse.response r)).success = false ∧
    (downloadSingleImage none (NetResponse.response r)).hasLocalPath = false ∧
    (downloadSingleImage none (NetResponse.response r)).finalFileSize = none := by
  have hl : lengthTooLarge r.contentLength = true := by
    rw [hlen]
    simpa [lengthTooLarge] using hbig
  unfold downloadSingleImage
  simp [hok, hct, hl]

/-- Witness for Claim C5 at a concrete 20 MB declared length. -/
theorem C5_declared_length_ceiling_witness :
    (downloadSingleImage none
        (NetResponse.response ⟨true, "image/jpeg", some 20000000, []⟩)).success = false ∧
    (downloadSingleImage none
        (NetResponse.response ⟨true, "image/jpeg", some 20000000, []⟩)).hasLocalPath = false ∧
    (downloadSingleImage none
        (NetResponse.response ⟨true, "image/jpeg", some 20000000, []⟩)).finalFileSize = none :=
  C5_declared_length_ceiling ⟨true, "image/jpeg", some 20000000, []⟩ 20000000
    rfl (by decide) rfl (by decide)

/-! ### Claim C6: the mid-stream size ceiling -/

theorem streamLoop_none_iff {max : Nat} :
    ∀ (total : Nat) (chunks : List Nat), total ≤ max →
      (streamLoop max total chunks = none ↔ max < total + chunks.sum)
  | total, [], h => by
    simp only [streamLoop, List.sum_nil]
    constructor
    · intro hsome; exact absurd hsome (Option.some_ne_none total)
    · intro hlt; omega
  | total, c :: rest, h => by
    unfold streamLoop
    by_cases hc : c = 0
    · rw [if_pos hc, streamLoop_none_iff total rest h]
      subst hc
      simp
    · rw [if_neg hc]
      by_cases hlt : max < total + c
      · rw [if_pos hlt]
        simp only [List.sum_cons]
        exact iff_of_true trivial (by omega)
      · rw [if_neg hlt, streamLoop_none_iff (total + c) rest (by omega)]
        simp only [List.sum_cons]
        omega

/-- Claim C6 (confirmed): a fetch task whose streamed body exceeds
`MAX_IMAGE_SIZE` mid-transfer (with no declared length, or a declared
length within the ceiling) aborts the transfer, and afterwards no file for
that destination remains on disk — lines 126-132 unlink the partly written file and
return a failure outcome. -/
theorem C6_midstream_ceiling (r : HttpResponse)
    (hok : r.statusOk = true) (hct : isImageContentType r.contentType = true)
    (hlen : lengthTooLarge r.contentLength = false)
    (hbig : MAX_IMAGE_SIZE < r.chunks.sum) :
    (downloadSingleImage none (NetResponse.response r)).success = false ∧
    (downloadSingleImage none (NetResponse.response r)).hasLocalPath = false ∧
    (downloadSingleImage none (NetResponse.response r)).finalFileSize = none := by
  have habort : streamLoop MAX_IMAGE_SIZE 0 r.chunks = none :=
    (streamLoop_none_iff 0 r.chunks (Nat.zero_le _)).mpr (by simpa using hbig)
  unfold downloadSingleImage
  simp [hok, hct, hlen, habort]

/-- Witness for Claim C6: two 9 MB chunks with no `content-length` header. -/
theorem C6_midstream_ceiling_witness :
    (downloadSingleImage none
        (NetResponse.response ⟨true, "image/png", none, [9000000, 9000000]⟩)).success = false ∧
    (downloadSingleImage none
        (NetResponse.response ⟨true, "image/png", none, [9000000, 9000000]⟩)).hasLocalPath = false ∧
    (downloadSingleImage none
        (NetResponse.response ⟨true, "image/png", none, [9000000, 9000000]⟩)).finalFileSize = none :=
  C6_midstream_ceiling ⟨true, "image/png", none, [9000000, 9000000]⟩
    rfl (by decide) rfl (by decide)

/-! ### Claim C8: Metadata Lookup failures return `None` -/

/-- Claim C8 (confirmed): when the cache has no entry for the identifier, a
failed lookup — a raised request error, a response whose body cannot be
parsed as JSON (in particular a bodiless 304 Not Modified response, which
passes `raise_for_status` and fails at `response.json()`), or an HTTP error
status (≥ 400, raised by `raise_for_status` as a `RequestException`) —
makes `_get_animal_image_from_api` return `None`; every such failure is
caught by the handlers at lines 236-247, so none propagates to the caller. -/
theorem C8_lookup_failure_none (name : String) (cache : List (String × Option String))
    (resp : ApiResponse) (hmiss : lookupCache name cache = none)
    (hfail : resp = ApiResponse.requestError ∨
      (∃ status, resp = ApiResponse.response status none) ∨
      (∃ status body, resp = ApiResponse.response status body ∧ 400 ≤ status)) :
    (getAnimalImageFromApi name cache resp).fst = none := by
  unfold getAnimalImageFromApi
  by_cases hn : name = ""
  · simp [hn]
  · rw [if_neg hn, hmiss]
    rcases hfail with rfl | ⟨status, rfl⟩ | ⟨status, body, rfl, hs⟩
    · rfl
    · by_cases h4 : 400 ≤ status
      · simp [h4]
      · simp [h4]
    · simp [hs]

/-- Witness for Claim C8: a bodiless 304 response on an empty cache. -/
theorem C8_lookup_failure_none_witness :
    (getAnimalImageFromApi "Lion" [] (ApiResponse.response 304 none)).fst = none :=
  C8_lookup_failure_none "Lion" [] (ApiResponse.response 304 none) rfl
    (Or.inr (Or.inl ⟨304, rfl⟩))

/-! ### Claim C7: the Deduplicator -/

theorem dedupGo_sublist (seen : List (String × String)) (l : List AnimalEntry) :
    (dedupGo seen l).Sublist l := by
  induction l generalizing seen with
  | nil => simp [dedupGo]
  | cons e rest ih =>
    unfold dedupGo
    by_cases h : entryKey e ∈ seen
    · rw [if_pos h]
      exact (ih seen).cons e
    · rw [if_neg h]
      exact (ih (entryKey e :: seen)).cons₂ e

theorem dedupGo_keys (seen : List (String × String)) (l : List AnimalEntry) :
    (∀ e ∈ dedupGo seen l, entryKey e ∉ seen) ∧
    ((dedupGo seen l).map entryKey).Nodup := by
  induction l generalizing seen with
  | nil => simp [dedupGo]
  | cons e rest ih =>
    unfold dedupGo
    by_cases h : entryKey e ∈ seen
    · rw [if_pos h]
      exact ih seen
    · rw [if_neg h]
      obtain ⟨h1, h2⟩ := ih (entryKey e :: seen)
      refine ⟨?_, ?_⟩
      · intro x hx
        rcases List.mem_cons.mp hx with rfl | hx'
        · exact h
        · exact fun hs => h1 x hx' (List.mem_cons_of_mem _ hs)
      · rw [List.map_cons, List.nodup_cons]
        refine ⟨?_, h2⟩
        intro hmem
        rw [List.mem_map] at hmem
        obtain ⟨y, hy, hkey⟩ := hmem
        exact h1 y hy (hkey ▸ List.mem_cons_self _ _)

theorem dedupGo_of_nodup : ∀ (seen : List (String × String)) (l : List AnimalEntry),
    (∀ e ∈ l, entryKey e ∉ seen) → ((l.map entryKey).Nodup) → dedupGo seen l = l
  | _, [], _, _ => rfl
  | seen, e :: rest, h1, h2 => by
    unfold dedupGo
    rw [if_neg (h1 e (List.mem_cons_self e rest))]
    rw [List.map_cons, List.nodup_cons] at h2
    congr 1
    apply dedupGo_of_nodup (entryKey e :: seen) rest
    · intro x hx hmem
      rcases List.mem_cons.mp hmem with heq | hmem'
      · exact h2.1 (heq ▸ List.mem_map_of_mem entryKey hx)
      · exact h1 x (List.mem_cons_of_mem _ hx) hmem'
    · exact h2.2

theorem dedupGo_find? (k : String × String) :
    ∀ (seen : List (String × String)) (l : List AnimalEntry), k ∉ seen →
      (dedupGo seen l).find? (fun e => decide (entryKey e = k)) =
        l.find? (fun e => decide (entryKey e = k))
  | _, [], _ => rfl
  | seen, e :: rest, hk => by
    unfold dedupGo
    by_cases h : entryKey e ∈ seen
    · rw [if_pos h]
      have hne : ¬(entryKey e = k) := fun he => hk (he ▸ h)
      rw [dedupGo_find? k seen rest hk,
        List.find?_cons_of_neg _ (by simpa using hne)]
    · rw [if_neg h]
      by_cases hek : entryKey e = k
      · rw [List.find?_cons_of_pos _ (by simpa using hek),
          List.find?_cons_of_pos _ (by simpa using hek)]
      · have hk' : k ∉ entryKey e :: seen := by
          intro hm
          rcases List.mem_cons.mp hm with heq | hm'
          · exact hek heq.symm
          · exact hk hm'
        rw [List.find?_cons_of_neg _ (by simpa using hek),
          List.find?_cons_of_neg _ (by simpa using hek),
          dedupGo_find? k (entryKey e :: seen) rest hk']

/-- Claim C7 (confirmed): `deduplicate_entries` is idempotent (applying it
to its own output is the identity), its output is a subsequence of the input
in input order, and it keeps the first occurrence of each (normalized key,
normalized value) pair: for every combination key, the first retained entry
with that key is exactly the first input entry with that key. -/
theorem C7_dedup_idempotent_stable (l : List AnimalEntry) :
    deduplicateEntries (deduplicateEntries l) = deduplicateEntries l ∧
    (deduplicateEntries l).Sublist l ∧
    ∀ k : String × String,
      (deduplicateEntries l).find? (fun e => decide (entryKey e = k)) =
        l.find? (fun e => decide (entryKey e = k)) := by
  refine ⟨?_, dedupGo_sublist [] l, fun k => dedupGo_find? k [] l (by simp)⟩
  exact dedupGo_of_nodup [] _ (by simp) (dedupGo_keys [] l).2

/-! ### Claim C9: the Table Classifier -/

theorem findColIdxGo_spec : ∀ (row : List String) (k i : Nat),
    findColIdxGo k row = Int.ofNat i →
      k ≤ i ∧ (∃ cell, row[i - k]? = some cell ∧ cellMatchesIndicator cell = true) ∧
      ∀ j, j < i - k → ∀ c, row[j]? = some c → cellMatchesIndicator c = false
  | [], _, i, h => by
    simp only [findColIdxGo, Int.ofNat_eq_natCast] at h
    omega
  | cell :: rest, k, i, h => by
    unfold findColIdxGo at h
    by_cases hm : cellMatchesIndicator cell = true
    · rw [if_pos hm] at h
      have hk : k = i := Int.ofNat.inj h
      subst hk
      refine ⟨Nat.le_refl k, ⟨cell, by simp, hm⟩, ?_⟩
      intro j hj
      exact absurd hj (by omega)
    · rw [if_neg hm] at h
      obtain ⟨hk, ⟨c, hc, hcm⟩, hall⟩ := findColIdxGo_spec rest (k + 1) i h
      have hik : i - k = (i - (k + 1)) + 1 := by omega
      refine ⟨by omega, ⟨c, ?_, hcm⟩, ?_⟩
      · rw [hik, List.getElem?_cons_succ]
        exact hc
      · intro j hj c' hc'
        match j with
        | 0 =>
          rw [List.getElem?_cons_zero] at hc'
          cases hc'
          exact Bool.eq_false_iff.mpr hm
        | j' + 1 =>
          rw [List.getElem?_cons_succ] at hc'
          exact hall j' (by omega) c' hc'

/-- Claim C9 (confirmed): a table is selected iff some cell of its first
(header) row contains, case-insensitively, one of the indicator substrings;
the reported column index is the leftmost matching header cell (the cell at
the index matches and every cell left of it does not); the header
`["Animal","Collateral Adjective","Other"]` is selected with target index 1
while `["Animal","Habitat","Diet"]` is excluded; and a table with no header
row is skipped without error. -/
theorem C9_classifier :
    (∀ (tables : List (List (List String))) (table : List (List String)),
        table ∈ identifyCollateralAdjectiveTables tables ↔
          (table ∈ tables ∧ ∃ headerRow rest, table = headerRow :: rest ∧
            ∃ cell ∈ headerRow, ∃ ind ∈ collateralIndicators,
              ind.data <:+: (pyLower cell).data)) ∧
    (∀ (headerRow : List String) (i : Nat),
        findCollateralAdjectiveColumnIndex headerRow = Int.ofNat i →
          (∃ cell, headerRow[i]? = some cell ∧ cellMatchesIndicator cell = true) ∧
          ∀ j, j < i → ∀ c, headerRow[j]? = some c → cellMatchesIndicator c = false) ∧
    identifyCollateralAdjectiveTables
        [[["Animal", "Collateral Adjective", "Other"]], [["Animal", "Habitat", "Diet"]]] =
      [[["Animal", "Collateral Adjective", "Other"]]] ∧
    findCollateralAdjectiveColumnIndex ["Animal", "Collateral Adjective", "Other"] = 1 ∧
    findCollateralAdjectiveColumnIndex ["Animal", "Habitat", "Diet"] = -1 ∧
    identifyCollateralAdjectiveTables [[]] = [] := by
  refine ⟨?_, ?_, by decide, by decide, by decide, by decide⟩
  · intro tables table
    unfold identifyCollateralAdjectiveTables
    rw [List.mem_filter]
    apply and_congr_right
    intro _
    cases table with
    | nil => simp
    | cons hr rest =>
      show hr.any cellMatchesIndicator = true ↔ _
      simp only [List.any_eq_true, cellMatchesIndicator, pySubstr, decide_eq_true_eq]
      constructor
      · rintro ⟨cell, hcell, ind, hind, hinf⟩
        exact ⟨hr, rest, rfl, cell, hcell, ind, hind, hinf⟩
      · rintro ⟨hr', rest', heq, cell, hcell, ind, hind, hinf⟩
        injection heq with h1 h2
        subst h1
        exact ⟨cell, hcell, ind, hind, hinf⟩
  · intro headerRow i h
    obtain ⟨-, hex, hall⟩ := findColIdxGo_spec headerRow 0 i h
    refine ⟨by simpa using hex, ?_⟩
    intro j hj c hc
    exact hall j (by omega) c hc

/-! ### Claim C10: the Validator's substring denylist -/

theorem toNat_charOfNat (n : Nat) (h1 : 97 ≤ n) (h2 : n ≤ 122) :
    (Char.ofNat n).toNat = n := by
  interval_cases n <;> decide

theorem pyIsSpace_pyToLower (c : Char) : pyIsSpace (pyToLower c) = pyIsSpace c := by
  by_cases h : 65 ≤ c.toNat ∧ c.toNat ≤ 90
  · have ht : (pyToLower c).toNat = c.toNat + 32 := by
      unfold pyToLower
      rw [if_pos h]
      exact toNat_charOfNat _ (by omega) (by omega)
    have e1 : pyIsSpace (pyToLower c) = false := by
      unfold pyIsSpace
      rw [ht]
      simp only [Bool.or_eq_false_iff, decide_eq_false_iff_not]
      omega
    have e2 : pyIsSpace c = false := by
      unfold pyIsSpace
      simp only [Bool.or_eq_false_iff, decide_eq_false_iff_not]
      omega
    rw [e1, e2]
  · unfold pyToLower
    rw [if_neg h]

/-- Dropping leading whitespace cannot eat past a non-whitespace character:
the part of the list from such a character on survives as a suffix. -/
theorem dropWhile_append_inner {w : List Char} {c : Char} (hc : pyIsSpace c = false)
    (u : List Char) :
    ∃ u', List.dropWhile pyIsSpace (u ++ c :: w) = u' ++ c :: w := by
  induction u with
  | nil =>
    refine ⟨[], ?_⟩
    simp [List.dropWhile_cons, hc]
  | cons a u ih =>
    by_cases ha : pyIsSpace a = true
    · obtain ⟨u', hu'⟩ := ih
      refine ⟨u', ?_⟩
      rw [List.cons_append, List.dropWhile_cons, if_pos (by simp [ha])]
      exact hu'
    · refine ⟨a :: u, ?_⟩
      rw [List.cons_append, List.dropWhile_cons, if_neg (by simp_all)]

/-- A substring whose first and last characters are not whitespace survives
`str.strip()`: stripping only removes whitespace from the two ends of the
enclosing string, and any occurrence of such a substring starts and ends at
non-whitespace characters. -/
theorem infix_stripChars {t l : List Char} (hne : t ≠ [])
    (hh : pyIsSpace t.headI = false)
    (hl2 : pyIsSpace t.reverse.headI = false)
    (h : t <:+: l) : t <:+: stripChars l := by
  obtain ⟨u, v, huv⟩ := h
  rcases t with - | ⟨c, t'⟩
  · exact absurd rfl hne
  have hc : pyIsSpace c = false := hh
  obtain ⟨u', h1⟩ := dropWhile_append_inner (w := t' ++ v) hc u
  have h1' : List.dropWhile pyIsSpace l = u' ++ (c :: t') ++ v := by
    calc List.dropWhile pyIsSpace l
        = List.dropWhile pyIsSpace (u ++ c :: (t' ++ v)) := by
          rw [← huv, List.append_assoc, List.cons_append]
      _ = u' ++ c :: (t' ++ v) := h1
      _ = u' ++ (c :: t') ++ v := by rw [List.append_assoc, List.cons_append]
  rcases hrt : (c :: t').reverse with - | ⟨d, w⟩
  · exact absurd (congrArg List.length hrt) (by simp)
  have hd : pyIsSpace d = false := by
    rw [hrt] at hl2
    exact hl2
  have h2 : (List.dropWhile pyIsSpace l).reverse = v.reverse ++ d :: (w ++ u'.reverse) := by
    rw [h1', List.reverse_append, List.reverse_append, hrt]
    simp [List.append_assoc]
  obtain ⟨v', h3⟩ := dropWhile_append_inner (w := w ++ u'.reverse) hd v.reverse
  have h4 : List.dropWhile pyIsSpace (List.dropWhile pyIsSpace l).reverse
      = v' ++ d :: (w ++ u'.reverse) := by
    rw [h2]
    exact h3
  have hw : w.reverse ++ [d] = c :: t' := by
    have h5 := congrArg List.reverse hrt
    simpa using h5.symm
  refine ⟨u', v'.reverse, ?_⟩
  show u' ++ (c :: t') ++ v'.reverse = stripChars l
  unfold stripChars
  rw [h4, ← hw]
  simp [List.append_assoc]

/-- Lowercasing commutes with stripping, because ASCII lowering preserves
whitespace-status of every character. -/
theorem stripChars_map_pyToLower (l : List Char) :
    stripChars (l.map pyToLower) = (stripChars l).map pyToLower := by
  have hp : (pyIsSpace ∘ pyToLower) = pyIsSpace := funext fun c => pyIsSpace_pyToLower c
  unfold stripChars
  rw [List.dropWhile_map, hp, ← List.map_reverse, List.dropWhile_map, hp, ← List.map_reverse]

/-- Every denylist term is nonempty and starts and ends with a
non-whitespace character. -/
theorem invalidTerms_props : ∀ t ∈ invalidTerms, t.data ≠ [] ∧
    pyIsSpace t.data.headI = false ∧ pyIsSpace t.data.reverse.headI = false := by decide

/-- Claim C10 (confirmed): the denylist check is substring-based — every
record whose key contains, anywhere within it and case-insensitively, one of
the nine denylist terms is rejected by `validate_animal_entry` (via
`is_valid_animal_name`), regardless of the rest of the record. -/
theorem C10_denylist_substring (e : AnimalEntry)
    (h : invalidTerms.any (fun term => pySubstr term.data (pyLower e.animal).data) = true) :
    validateAnimalEntry e = false := by
  rw [List.any_eq_true] at h
  obtain ⟨term, hterm, hsub⟩ := h
  rw [pySubstr, decide_eq_true_eq] at hsub
  obtain ⟨hne, hh, hl2⟩ := invalidTerms_props term hterm
  have hsub' : term.data <:+: stripChars (e.animal.data.map pyToLower) :=
    infix_stripChars hne hh hl2 hsub
  rw [stripChars_map_pyToLower] at hsub'
  have hval : isValidAnimalName (String.mk (stripChars e.animal.data)) = false := by
    unfold isValidAnimalName
    split
    · rfl
    · show (!(invalidTerms.any fun t =>
          pySubstr t.data (pyLower (String.mk (stripChars e.animal.data))).data)) = false
      rw [Bool.not_eq_false']
      rw [List.any_eq_true]
      refine ⟨term, hterm, ?_⟩
      rw [pySubstr, decide_eq_true_eq]
      exact hsub'
  unfold validateAnimalEntry
  split
  · rfl
  · show (if !(isValidAnimalName (String.mk (stripChars e.animal.data))) then false
        else _) = false
    rw [hval]
    rfl

/-- Witness for Claim C10: `"Chamaleon"` contains `"male"` as an inner
substring and is rejected even though it is not a denylist label. -/
theorem C10_denylist_substring_witness :
    (invalidTerms.any fun term =>
      pySubstr term.data (pyLower (AnimalEntry.mk "Chamaleon" "Reptilian").animal).data) = true ∧
    validateAnimalEntry (AnimalEntry.mk "Chamaleon" "Reptilian") = false :=
  ⟨by decide, C10_denylist_substring (AnimalEntry.mk "Chamaleon" "Reptilian") (by decide)⟩

/-! ### Claim C4: outcome attachment in the Fetch Orchestrator -/

/-- With pairwise-distinct tasks, the `animal_to_data_map` lookup of task
`i`'s identity yields `i` itself. -/
theorem mapLookup_enum : ∀ (tasks : List (String × String)), tasks.Nodup →
    ∀ (i : Nat) (key : String × String), tasks[i]? = some key →
      mapLookup tasks.enum key = some i := by
  intro tasks
  induction tasks using List.reverseRecOn with
  | nil =>
    intro _ i key hi
    simp at hi
  | append_singleton l x ih =>
    intro hnd i key hi
    rw [List.nodup_append] at hnd
    have hxl : x ∉ l := fun hm => hnd.2.2 hm (List.mem_singleton.mpr rfl)
    have hi_lt : i < l.length + 1 := by
      have h1 := (List.getElem?_eq_some.mp hi).1
      simpa using h1
    unfold mapLookup
    rw [List.enum_append, List.reverse_append]
    rw [show (List.enumFrom l.length [x]).reverse = [(l.length, x)] from rfl]
    rw [List.singleton_append]
    by_cases hx : x = key
    · subst hx
      rw [List.find?_cons_of_pos _ (by simp)]
      have hil : i = l.length := by
        by_contra hne
        have hlt : i < l.length := by omega
        rw [List.getElem?_append, if_pos hlt] at hi
        exact hxl (List.getElem?_mem hi)
      simp [hil]
    · rw [List.find?_cons_of_neg _ (by simp [hx])]
      have hil : i ≠ l.length := by
        intro he
        subst he
        rw [List.getElem?_concat_length] at hi
        exact hx (Option.some.inj hi)
      have hlt : i < l.length := by omega
      rw [List.getElem?_append, if_pos hlt] at hi
      exact ih hnd.1 i key hi

/-- The attachment loop of `download_images_concurrently`, position by
position: with pairwise-distinct tasks, after processing the completion
order each position `j` that was completed holds its own task's outcome, and
every other position is untouched. -/
theorem orch_fold_getElem? (tasks : List (String × String)) (hnd : tasks.Nodup)
    (outcome : Nat → TaskOutcome) :
    ∀ (order : List Nat) (statuses : List (Option TaskOutcome)),
      statuses.length = tasks.length → ∀ j : Nat,
        (order.foldl (fun statuses i =>
          match tasks[i]? with
          | none => statuses
          | some key =>
            match mapLookup tasks.enum key with
            | none => statuses
            | some dataIdx => statuses.set dataIdx (some (outcome i))) statuses)[j]? =
        if j ∈ order ∧ j < tasks.length then some (some (outcome j)) else statuses[j]?
  | [], statuses, _, j => by simp
  | i :: rest, statuses, hlen, j => by
    rw [List.foldl_cons]
    rcases hti : tasks[i]? with - | key
    · simp only [hti]
      rw [orch_fold_getElem? tasks hnd outcome rest statuses hlen j]
      have hige : tasks.length ≤ i := List.getElem?_eq_none_iff.mp hti
      have hiff : (j ∈ i :: rest ∧ j < tasks.length) ↔ (j ∈ rest ∧ j < tasks.length) := by
        rw [List.mem_cons]
        constructor
        · rintro ⟨rfl | hm, hlt⟩
          · omega
          · exact ⟨hm, hlt⟩
        · rintro ⟨hm, hlt⟩
          exact ⟨Or.inr hm, hlt⟩
      rw [if_congr hiff rfl rfl]
    · have hmap : mapLookup tasks.enum key = some i := mapLookup_enum tasks hnd i key hti
      have hilt : i < tasks.length := by
        have h1 := (List.getElem?_eq_some.mp hti).1
        exact h1
      simp only [hti, hmap]
      rw [orch_fold_getElem? tasks hnd outcome rest (statuses.set i (some (outcome i)))
        (by rw [List.length_set]; exact hlen) j]
      by_cases hjr : j ∈ rest ∧ j < tasks.length
      · rw [if_pos hjr, if_pos ⟨List.mem_cons_of_mem i hjr.1, hjr.2⟩]
      · rw [if_neg hjr]
        by_cases hji : j = i
        · subst hji
          rw [if_pos ⟨List.mem_cons_self j rest, hilt⟩]
          rw [List.getElem?_set_self (by omega)]
        · rw [List.getElem?_set_ne (fun he => hji he.symm)]
          have : ¬(j ∈ i :: rest ∧ j < tasks.length) := by
            rintro ⟨hm, hlt⟩
            rcases List.mem_cons.mp hm with rfl | hm'
            · exact hji rfl
            · exact hjr ⟨hm', hlt⟩
          rw [if_neg this]

/-- Claim C4 (counterexample): with two records sharing the same
`(key, locator)` pair, the outcome of task 0 is NOT attached to record 0 —
the `animal_to_data_map` dict maps the shared identity to the LAST record
index, so record 0 is never updated, and the attached value at record 1
depends on the completion order. -/
theorem C4_attach_counterexample :
    (downloadImagesConcurrently
        [OrchRecord.mk "Lion" (some "u"), OrchRecord.mk "Lion" (some "u")]
        (fun i => TaskOutcome.mk true (if i = 0 then "first" else "second") none)
        [0, 1])[0]? = some none ∧
    downloadImagesConcurrently
        [OrchRecord.mk "Lion" (some "u"), OrchRecord.mk "Lion" (some "u")]
        (fun i => TaskOutcome.mk true (if i = 0 then "first" else "second") none)
        [0, 1] ≠
      downloadImagesConcurrently
        [OrchRecord.mk "Lion" (some "u"), OrchRecord.mk "Lion" (some "u")]
        (fun i => TaskOutcome.mk true (if i = 0 then "first" else "second") none)
        [1, 0] := by
  decide

/-- Claim C4 (amended): for every list of N records whose `(key, locator)`
pairs are pairwise distinct, and every completion order that is a
permutation of the N task indices, every record ends up with exactly the
outcome of its own task — so N outcomes are attached, matched by task
identity and independent of completion order.  (With duplicate pairs, all
outcomes for a shared identity land on its last record, as the
counterexample shows.) -/
theorem C4_attach_amended (records : List OrchRecord) (outcome : Nat → TaskOutcome)
    (order : List Nat) (hnd : (orchTasks records).Nodup)
    (hperm : order.Perm (List.range records.length)) :
    downloadImagesConcurrently records outcome order =
      (List.range records.length).map fun i => some (outcome i) := by
  have hlen_tasks : (orchTasks records).length = records.length := by
    simp [orchTasks]
  apply List.ext_getElem?
  intro j
  unfold downloadImagesConcurrently
  rw [orch_fold_getElem? (orchTasks records) hnd outcome order
    (List.replicate records.length none) (by simp [hlen_tasks]) j]
  rw [List.getElem?_map]
  by_cases hj : j < records.length
  · have hmem : j ∈ order := hperm.mem_iff.mpr (List.mem_range.mpr hj)
    rw [if_pos ⟨hmem, by omega⟩, List.getElem?_range hj]
    rfl
  · rw [if_neg (fun hcon => hj (by omega))]
    rw [List.getElem?_replicate, if_neg hj]
    rw [List.getElem?_eq_none_iff.mpr (by simpa using hj)]
    rfl

/-- Witness for the amended Claim C4: two distinct tasks completing in
reversed order still attach each record's own outcome. -/
theorem C4_attach_amended_witness :
    downloadImagesConcurrently
        [OrchRecord.mk "Lion" (some "u"), OrchRecord.mk "Eagle" (some "v")]
        (fun i => TaskOutcome.mk true (if i = 0 then "first" else "second") none)
        [1, 0] =
      (List.range 2).map fun i =>
        some (TaskOutcome.mk true (if i = 0 then "first" else "second") none) :=
  C4_attach_amended
    [OrchRecord.mk "Lion" (some "u"), OrchRecord.mk "Eagle" (some "v")]
    (fun i => TaskOutcome.mk true (if i = 0 then "first" else "second") none)
    [1, 0] (by decide) (by decide)

/-- Witness for Claim C9: instantiating the leftmost-index part at the
example header row discharges its hypothesis concretely. -/
theorem C9_classifier_witness :
    (∃ cell, (["Animal", "Collateral Adjective", "Other"] : List String)[1]? = some cell ∧
      cellMatchesIndicator cell = true) ∧
    ∀ j, j < 1 → ∀ c, (["Animal", "Collateral Adjective", "Other"] : List String)[j]? = some c →
      cellMatchesIndicator c = false :=
  C9_classifier.2.1 ["Animal", "Collateral Adjective", "Other"] 1 (by decide)

end Scraper
